import Mathlib

/-!
Shallow embedding of the alchemy-webhook sources (parser.go, pubsub.go and
the Firestore writer) together with theorems about its decoding, identity,
batching, publishing and persistence behaviour.

Machine integers (Go int / int64) are modelled as Int; Go slices as List;
a Go *big.Int as Option Int (none is the nil pointer); fallible functions
return Except / Option, and a Go runtime panic is a distinguished outcome.
-/

namespace AlchemyWebhook

/-! Decimal rendering and scanning.

These model the library routines the repository leans on: fmt Sprintf with
the d verb, math/big Int.String, and math/big Int.SetString with bases 10
and 16.  They are written with explicit fuel so that every definition is
structurally recursive and evaluates inside the kernel. -/

/-- ASCII character of one decimal digit d < 10. -/
def digitChar (d : Nat) : Char := Char.ofNat (48 + d)

/-- Little-endian base-10 digits of n, fuelled (any fuel at least n works). -/
def natDigitsAux : Nat → Nat → List Nat
  | 0, _ => []
  | f + 1, n => if n = 0 then [] else n % 10 :: natDigitsAux f (n / 10)

def natDigits (n : Nat) : List Nat := natDigitsAux n n

/-- Characters of the canonical decimal rendering of a Nat: most significant
digit first, and the single digit 0 for zero, exactly as fmt d and
big.Int.String print a non-negative value. -/
def natDecimalChars (n : Nat) : List Char :=
  if n = 0 then ['0'] else ((natDigits n).map digitChar).reverse

def natDecimal (n : Nat) : String := ⟨natDecimalChars n⟩

def intDecimalChars (i : Int) : List Char :=
  if i < 0 then '-' :: natDecimalChars i.natAbs else natDecimalChars i.natAbs

/-- Decimal rendering of a Go int or big.Int (fmt d, big.Int.String). -/
def intDecimal (i : Int) : String := ⟨intDecimalChars i⟩

/-- Value of one decimal digit character. -/
def decDigitVal? (c : Char) : Option Nat :=
  if 48 ≤ c.toNat ∧ c.toNat ≤ 57 then some (c.toNat - 48) else none

/-- Value of one hexadecimal digit character (encoding/hex, big.Int base 16). -/
def hexVal? (c : Char) : Option Nat :=
  if 48 ≤ c.toNat ∧ c.toNat ≤ 57 then some (c.toNat - 48)
  else if 97 ≤ c.toNat ∧ c.toNat ≤ 102 then some (c.toNat - 87)
  else if 65 ≤ c.toNat ∧ c.toNat ≤ 70 then some (c.toNat - 55)
  else none

/-- Horner scan of a digit run; none as soon as a character is not a digit
of the base. -/
def digitsValAux (base : Nat) (dv : Char → Option Nat) : List Char → Nat → Option Nat
  | [], acc => some acc
  | c :: rest, acc =>
    match dv c with
    | some d => digitsValAux base dv rest (acc * base + d)
    | none => none

/-- A non-empty all-digit run, scanned to its value. -/
def parseUnsigned (base : Nat) (dv : Char → Option Nat) (l : List Char) : Option Nat :=
  match l with
  | [] => none
  | _ :: _ => digitsValAux base dv l 0

/-- Models math/big Int.SetString at a fixed base (10 or 16): an optional
sign followed by a non-empty run of digits of that base; none when the text
is rejected. -/
def setStringIntChars (base : Nat) (dv : Char → Option Nat) : List Char → Option Int
  | [] => none
  | c :: rest =>
    if c = '-' then (parseUnsigned base dv rest).map (fun n => -(Int.ofNat n))
    else if c = '+' then (parseUnsigned base dv rest).map (fun n => Int.ofNat n)
    else (parseUnsigned base dv (c :: rest)).map (fun n => Int.ofNat n)

def setStringInt (base : Nat) (dv : Char → Option Nat) (s : String) : Option Int :=
  setStringIntChars base dv s.data

/-- Spec-side value of a hex digit string (big-endian Horner sum). -/
def hexValue (l : List Char) : Nat :=
  l.foldl (fun a c => a * 16 + (hexVal? c).getD 0) 0

/-! Hex byte decoding, modelling go-ethereum common.FromHex. -/

/-- Strip a 0x or 0X prefix if present (has0xPrefix in common/bytes.go). -/
def stripHexPfx : List Char → List Char
  | '0' :: 'x' :: rest => rest
  | '0' :: 'X' :: rest => rest
  | l => l

/-- Decode hex character pairs into bytes, stopping at the first invalid
pair: encoding/hex DecodeString returns the bytes decoded so far and
common.Hex2Bytes drops the error. -/
def decodeHexPairs : List Char → List Nat
  | c1 :: c2 :: rest =>
    match hexVal? c1, hexVal? c2 with
    | some h, some lo => (16 * h + lo) :: decodeHexPairs rest
    | _, _ => []
  | _ => []

/-- Models common.FromHex: strip the 0x prefix, left-pad an odd-length text
with one 0 nibble, then decode hex pairs. -/
def fromHexBytes (s : String) : List Nat :=
  let t := stripHexPfx s.data
  let u := if t.length % 2 = 1 then '0' :: t else t
  decodeHexPairs u

/-- Big-endian byte-string value. -/
def beBytesToNat (l : List Nat) : Nat := l.foldl (fun a b => 256 * a + b) 0

/-- ASCII character of one hex digit (lowercase letters). -/
def hexDigitChar (d : Nat) : Char :=
  if d < 10 then Char.ofNat (48 + d) else Char.ofNat (87 + d)

def bytesToHexChars (b : List Nat) : List Char :=
  b.foldr (fun x acc => hexDigitChar (x / 16) :: hexDigitChar (x % 16) :: acc) []

/-- Models common.BytesToAddress over FromHex: keep the last 20 bytes, or
left-pad with zero bytes up to 20. -/
def hexToAddressBytes (s : String) : List Nat :=
  let b := fromHexBytes s
  if 20 ≤ b.length then b.drop (b.length - 20)
  else List.replicate (20 - b.length) 0 ++ b

/-- Models common.Address.Hex, which renders 0x plus 40 hex digits.  Its
EIP-55 mixed casing is driven by a Keccak-256 hash of the address text and
is abstracted here to the lowercase rendering; the function stays a pure,
deterministic map of the 20 address bytes and no claim depends on casing. -/
def addressHex (b : List Nat) : String := ⟨'0' :: 'x' :: bytesToHexChars b⟩

/-! Data model, following the struct declarations of parser.go.  Go field
names From and To become fromAddress and toAddress (from is a Lean
keyword); WebhookEvent's nested anonymous structs are flattened into named
fields of the same shapes. -/

/-- Block of parser.go. -/
structure Block where
  hash : String
  number : Int
  timestamp : Int
deriving DecidableEq, Inhabited

/-- Transaction of parser.go. -/
structure Transaction where
  hash : String
  fromAddress : String
  toAddress : String
  value : String
  gasPrice : String
  gas : Int
  status : Int
  gasUsed : Int
deriving DecidableEq, Inhabited

/-- Transfer of parser.go; Value is a *big.Int, none being nil. -/
structure Transfer where
  contract : String
  fromAddress : String
  toAddress : String
  value : Option Int
  logIndex : Int
deriving DecidableEq, Inhabited

/-- AlchemyMetadata of parser.go. -/
structure AlchemyMetadata where
  webhookId : String
  eventId : String
  sequenceNumber : String
  createdAt : String
deriving DecidableEq, Inhabited

/-- TransferDocument of parser.go. -/
structure TransferDocument where
  block : Block
  transaction : Transaction
  transfer : Transfer
  network : String
  alchemy : AlchemyMetadata
deriving DecidableEq, Inhabited

/-- The transaction summary carried by one webhook log entry. -/
structure LogTransaction where
  hash : String
  fromAddress : String
  toAddress : String
  value : String
  gasPrice : String
  gas : Int
  status : Int
  gasUsed : Int
deriving DecidableEq, Inhabited

/-- One entry of WebhookEvent.Event.Data.Block.Logs. -/
structure WebhookLog where
  data : String
  topics : List String
  index : Int
  accountAddress : String
  transaction : LogTransaction
deriving DecidableEq, Inhabited

/-- WebhookEvent of parser.go, nested anonymous structs flattened.  The Go
CreatedAt field is a time.Time that the decoder renders with
Format(time.RFC3339); the model carries that rendering directly, the
formatting itself being outside every claim. -/
structure WebhookEvent where
  webhookId : String
  id : String
  createdAt : String
  eventType : String
  blockHash : String
  blockNumber : Int
  blockTimestamp : Int
  logs : List WebhookLog
  sequenceNumber : String
  network : String
deriving DecidableEq, Inhabited

/-! Functions of parser.go. -/

/-- GetDocumentID of parser.go: Sprintf of the transaction hash, a dash and
the decimal log index. -/
def GetDocumentID (txHash : String) (logIndex : Int) : String :=
  txHash ++ "-" ++ intDecimal logIndex

/-- convertHexToDecimal of parser.go: TrimPrefix 0x, the empty remainder
becomes 0, otherwise big.Int SetString base 16 followed by String.  When
SetString rejects the text big leaves the receiver unspecified and the Go
code prints whatever the fresh zero big.Int holds; that branch, exercised
by no claim, is modelled as 0. -/
def trim0x : List Char → List Char
  | '0' :: 'x' :: rest => rest
  | l => l

def convertHexToDecimal (hexStr : String) : String :=
  let h := trim0x hexStr.data
  if h = [] then "0"
  else
    match setStringIntChars 16 hexVal? h with
    | some v => intDecimal v
    | none => "0"

/-- Errors ParseTransferEvent reports (out of range index, fewer than three
topics, ABI decode failure). -/
inductive ParseError where
  | outOfRange
  | malformedEvent
  | decodeError
deriving DecidableEq

/-- Outcome of ParseTransferEvent: a document, a returned error, or a Go
runtime panic. -/
inductive ParseOutcome where
  | ok (doc : TransferDocument)
  | err (e : ParseError)
  | panics
deriving DecidableEq

def ParseOutcome.toOption : ParseOutcome → Option TransferDocument
  | .ok d => some d
  | _ => none

/-- Models abi.UnpackIntoInterface for the Transfer event, whose only
non-indexed argument is one uint256: go-ethereum rejects data shorter than
one 32-byte word and otherwise reads the word big-endian. -/
def transferValueBytes? (dataHex : String) : Option Nat :=
  if (fromHexBytes dataHex).length < 32 then none
  else some (beBytesToNat ((fromHexBytes dataHex).take 32))

/-- The TransferDocument literal built at the end of ParseTransferEvent. -/
def mkTransferDocument (w : WebhookEvent) (log : WebhookLog) (v : Nat) : TransferDocument :=
  { block := { hash := w.blockHash, number := w.blockNumber, timestamp := w.blockTimestamp }
  , transaction :=
      { hash := log.transaction.hash
      , fromAddress := log.transaction.fromAddress
      , toAddress := log.transaction.toAddress
      , value := convertHexToDecimal log.transaction.value
      , gasPrice := log.transaction.gasPrice
      , gas := log.transaction.gas
      , status := log.transaction.status
      , gasUsed := log.transaction.gasUsed }
  , transfer :=
      { contract := log.accountAddress
      , fromAddress := addressHex (hexToAddressBytes (log.topics.getD 1 ""))
      , toAddress := addressHex (hexToAddressBytes (log.topics.getD 2 ""))
      , value := some (v : Int)
      , logIndex := log.index }
  , network := w.network
  , alchemy :=
      { webhookId := w.webhookId, eventId := w.id
      , sequenceNumber := w.sequenceNumber, createdAt := w.createdAt } }

/-- ParseTransferEvent of parser.go.  The guard is exactly the source's
logIndex at least the length check; a negative index passes that guard and
the subsequent slice indexing panics at runtime, which the model makes
explicit.  In the non-negative in-range branch the source checks the topic
count and then ABI-decodes the payload; the first topic is never compared
with anything. -/
def ParseTransferEvent (w : WebhookEvent) (logIndex : Int) : ParseOutcome :=
  if (w.logs.length : Int) ≤ logIndex then .err .outOfRange
  else if logIndex < 0 then .panics
  else if (w.logs.getD logIndex.toNat default).topics.length < 3 then .err .malformedEvent
  else
    match transferValueBytes? (w.logs.getD logIndex.toNat default).data with
    | none => .err .decodeError
    | some v => .ok (mkTransferDocument w (w.logs.getD logIndex.toNat default) v)

/-- ParseTransferEvents of parser.go: iterate over the log indices, append
the documents of the successful parses, swallow the failures, and return a
nil error. -/
def ParseTransferEvents (w : WebhookEvent) : List TransferDocument × Option ParseError :=
  ((List.range w.logs.length).foldl
    (fun (acc : List TransferDocument) (i : Nat) =>
      match ParseTransferEvent w (i : Int) with
      | .ok doc => acc ++ [doc]
      | _ => acc) [],
   none)

/-! The JSON value tree, and the marshalling of the document types under
their encoding/json struct tags (field order as declared). -/

inductive Json where
  | str (s : String)
  | num (n : Int)
  | arr (elems : List Json)
  | obj (fields : List (String × Json))

def marshalBlock (b : Block) : Json :=
  .obj [("hash", .str b.hash), ("number", .num b.number), ("timestamp", .num b.timestamp)]

def marshalTransaction (t : Transaction) : Json :=
  .obj [("hash", .str t.hash), ("from", .str t.fromAddress), ("to", .str t.toAddress),
        ("value", .str t.value), ("gasPrice", .str t.gasPrice), ("gas", .num t.gas),
        ("status", .num t.status), ("gasUsed", .num t.gasUsed)]

/-- big.Int.String including its nil-receiver rendering. -/
def bigIntString : Option Int → String
  | some v => intDecimal v
  | none => "<nil>"

/-- Transfer.MarshalJSON of parser.go: an anonymous struct whose Value
string shadows the embedded alias's big.Int field, so the object carries
the value first, as a decimal string, then the remaining fields in
declaration order. -/
def Transfer.MarshalJSON (t : Transfer) : Json :=
  .obj [("value", .str (bigIntString t.value)), ("contract", .str t.contract),
        ("from", .str t.fromAddress), ("to", .str t.toAddress), ("logIndex", .num t.logIndex)]

def marshalAlchemy (a : AlchemyMetadata) : Json :=
  .obj [("webhookId", .str a.webhookId), ("eventId", .str a.eventId),
        ("sequenceNumber", .str a.sequenceNumber), ("createdAt", .str a.createdAt)]

def marshalTransferDocument (d : TransferDocument) : Json :=
  .obj [("block", marshalBlock d.block), ("transaction", marshalTransaction d.transaction),
        ("transfer", Transfer.MarshalJSON d.transfer), ("network", .str d.network),
        ("alchemy", marshalAlchemy d.alchemy)]

/-- json.Marshal of a document slice. -/
def marshalTransferDocuments (l : List TransferDocument) : Json :=
  .arr (l.map marshalTransferDocument)

/-- First binding of a key in a JSON object (the marshalled objects bind
each key once, so this is the encoding/json member access). -/
def jLookup (key : String) : List (String × Json) → Option Json
  | [] => none
  | (k, v) :: rest => if k = key then some v else jLookup key rest

/-- A string member: absent keeps the receiver's value, a non-string is an
unmarshal type error. -/
def jString (fields : List (String × Json)) (key : String) (dflt : String) :
    Except String String :=
  match jLookup key fields with
  | none => .ok dflt
  | some (.str s) => .ok s
  | some _ => .error "json: cannot unmarshal"

/-- An integer member: absent keeps the receiver's value, a non-number is an
unmarshal type error. -/
def jInt (fields : List (String × Json)) (key : String) (dflt : Int) :
    Except String Int :=
  match jLookup key fields with
  | none => .ok dflt
  | some (.num n) => .ok n
  | some _ => .error "json: cannot unmarshal"

/-- Transfer.UnmarshalJSON of parser.go over the JSON tree: the aux struct
captures the value member as a string while the other members write through
to the receiver t; afterwards a non-empty value string is parsed with
big.Int SetString base 10 into a fresh big.Int.  A SetString failure leaves
that fresh zero big.Int in place, modelled as 0; an empty or absent value
string leaves the receiver's Value untouched. -/
def Transfer.UnmarshalJSON (t : Transfer) (j : Json) : Except String Transfer :=
  match j with
  | .obj fields => do
    let valueStr ← jString fields "value" ""
    let contract ← jString fields "contract" t.contract
    let fromA ← jString fields "from" t.fromAddress
    let toA ← jString fields "to" t.toAddress
    let logIndex ← jInt fields "logIndex" t.logIndex
    let value : Option Int :=
      if valueStr ≠ "" then some ((setStringInt 10 decDigitVal? valueStr).getD 0)
      else t.value
    .ok { contract := contract, fromAddress := fromA, toAddress := toA
        , value := value, logIndex := logIndex }
  | _ => .error "json: cannot unmarshal"

/-! pubsub.go. -/

/-- One Pub/Sub message: payload bytes (their JSON tree) and attributes. -/
structure PubSubMessage where
  data : Json
  attributes : List (String × String)

/-- The attributes map PublishTransfers builds: from the first document's
metadata when the slice is non-empty, else just the zero count. -/
def pubAttributes (transfers : List TransferDocument) : List (String × String) :=
  match transfers with
  | t0 :: _ =>
      [("webhook_id", t0.alchemy.webhookId), ("event_id", t0.alchemy.eventId),
       ("network", t0.network), ("count", natDecimal transfers.length)]
  | [] => [("count", "0")]

/-- The one message PublishTransfers hands to Publish: the marshalled slice
as payload plus the attributes. -/
def pubMessage (transfers : List TransferDocument) : PubSubMessage :=
  { data := marshalTransferDocuments transfers, attributes := pubAttributes transfers }

/-- PublishTransfers of pubsub.go: marshal the whole slice as the payload
of one message, take the attributes from the first document's metadata (or
just a zero count for an empty slice), publish once, and succeed or fail
with the Get result of that single call.  The transport is the publishAck
parameter; the second component lists the messages handed to it. -/
def PublishTransfers (publishAck : PubSubMessage → Except String String)
    (transfers : List TransferDocument) : Except String Unit × List PubSubMessage :=
  match publishAck (pubMessage transfers) with
  | .ok _ => (.ok (), [pubMessage transfers])
  | .error e => (.error e, [pubMessage transfers])

/-! The Firestore writer. -/

/-- The store: documents by document id, in first-creation order. -/
abbrev FirestoreState := List (String × TransferDocument)

/-- The document key the writer uses for one record. -/
def docKey (t : TransferDocument) : String :=
  GetDocumentID t.transaction.hash t.transfer.logIndex

/-- Models firestore Transaction.Set keyed by the document reference:
replace in place when the key exists, append otherwise (an upsert). -/
def upsert (key : String) (v : TransferDocument) : FirestoreState → FirestoreState
  | [] => [(key, v)]
  | (k, w) :: rest => if k = key then (k, v) :: rest else (k, w) :: upsert key v rest

/-- The document stored under a key, the observation the idempotence
arguments run on. -/
def lookupStore (key : String) : FirestoreState → Option TransferDocument
  | [] => none
  | (k, v) :: rest => if k = key then some v else lookupStore key rest

/-- The body of one committed transaction: Set every record of the group
under its document key. -/
def applyGroup (s : FirestoreState) (g : List TransferDocument) : FirestoreState :=
  g.foldl (fun s t => upsert (docKey t) t s) s

def applyGroups (s : FirestoreState) (gs : List (List TransferDocument)) : FirestoreState :=
  gs.foldl applyGroup s

/-- The Firestore transaction limit of the writer. -/
def maxBatchSize : Nat := 500

/-- Contiguous slices of at most limit records, fuelled to stay structural
(any fuel at least the list length works): the writer's slicing loop. -/
def chunksAux {α : Type} (limit : Nat) : Nat → List α → List (List α)
  | _, [] => []
  | 0, _ :: _ => []
  | f + 1, l => l.take limit :: chunksAux limit f (l.drop limit)

def chunks {α : Type} (limit : Nat) (l : List α) : List (List α) :=
  chunksAux limit l.length l

/-- What one invocation of the writer did: the store afterwards, whether it
returned nil, and the groups for which it opened a transaction. -/
structure WriteResult where
  store : FirestoreState
  success : Bool
  attempted : List (List TransferDocument)
deriving DecidableEq

/-- One RunTransaction call per group, numbered in order: txOk says whether
the store commits call n (all its Sets applied) or fails it (the store's
commit is all-or-nothing, so nothing of the group is applied); on a failure
the writer returns that error at once and no further group is attempted. -/
def runGroups (txOk : Nat → Bool) : Nat → FirestoreState → List (List TransferDocument) →
    WriteResult
  | _, s, [] => { store := s, success := true, attempted := [] }
  | n, s, g :: gs =>
    if txOk n then
      let r := runGroups txOk (n + 1) (applyGroup s g) gs
      { store := r.store, success := r.success, attempted := g :: r.attempted }
    else { store := s, success := false, attempted := [g] }

/-- WriteBatchTransfers of the Firestore writer: slice the records into
groups of at most 500 and commit the groups sequentially, one transaction
each, stopping at the first failed transaction. -/
def WriteBatchTransfers (txOk : Nat → Bool) (transfers : List TransferDocument)
    (s : FirestoreState) : WriteResult :=
  runGroups txOk 0 s (chunks maxBatchSize transfers)

/-- The oracle of a store that commits every transaction. -/
def allTxOk : Nat → Bool := fun _ => true

/-! Characters of a transaction hash under normal hash semantics: hex
digits and the x of the 0x prefix.  None of them is a dash, which is what
the key-injectivity argument needs. -/

def isHexHashChar (c : Char) : Bool :=
  (48 ≤ c.toNat && c.toNat ≤ 57) || (97 ≤ c.toNat && c.toNat ≤ 102) ||
  (65 ≤ c.toNat && c.toNat ≤ 70) || c = 'x' || c = 'X'

def IsHexHashString (s : String) : Prop := ∀ c ∈ s.data, isHexHashChar c = true

instance (s : String) : Decidable (IsHexHashString s) := by
  unfold IsHexHashString; infer_instance

/-- The ERC-20 Transfer event signature hash, the topics filter the
repository's README installs upstream in the GraphQL subscription; the Go
decoder itself never mentions it. -/
def transferEventSignature : String :=
  "0xddf252ad1be2c89b69c2b068fc378daa952ba7f163c4a11628f55a4df523b3ef"

/-! Concrete data for witnesses and counterexamples. -/

def sampleDoc : TransferDocument :=
  { block := { hash := "0xb", number := 1, timestamp := 1 }
  , transaction := { hash := "0xabc", fromAddress := "0xf", toAddress := "0xt", value := "0"
                   , gasPrice := "0x1", gas := 21000, status := 1, gasUsed := 21000 }
  , transfer := { contract := "0xc", fromAddress := "0xfrom", toAddress := "0xto"
                , value := some 5, logIndex := 0 }
  , network := "ETH_MAINNET"
  , alchemy := { webhookId := "wh_1", eventId := "whevt_1", sequenceNumber := "1"
               , createdAt := "2026-01-01T00:00:00Z" } }

def sampleDoc2 : TransferDocument :=
  { sampleDoc with transfer := { sampleDoc.transfer with logIndex := 1 } }

/-- A log entry whose first topic is not the transfer-event signature but
whose shape otherwise parses (three topics, a 32-byte payload). -/
def wrongSigLog : WebhookLog :=
  { data := "0x0000000000000000000000000000000000000000000000000000000000000005"
  , topics := ["0x00", "0x01", "0x02"]
  , index := 0
  , accountAddress := "0xc"
  , transaction := { hash := "0xh", fromAddress := "0xa", toAddress := "0xb", value := "0x1"
                   , gasPrice := "0x2", gas := 21000, status := 1, gasUsed := 21000 } }

def wrongSigWebhook : WebhookEvent :=
  { webhookId := "wh_1", id := "whevt_1", createdAt := "2026-01-01T00:00:00Z"
  , eventType := "GRAPHQL", blockHash := "0xbl", blockNumber := 1, blockTimestamp := 2
  , logs := [wrongSigLog], sequenceNumber := "1", network := "ETH_MAINNET" }

/-- A notification whose only log entry carries two topics, so every entry
is skipped. -/
def twoTopicWebhook : WebhookEvent :=
  { wrongSigWebhook with
    logs := [{ wrongSigLog with topics := ["0x00", "0x01"] }] }

/-- A transport that acknowledges every publish. -/
def ackOkConst : PubSubMessage → Except String String := fun _ => .ok "m1"

/-- Fallback message for head access in statements. -/
def pubSubMessage0 : PubSubMessage := { data := .arr [], attributes := [] }

set_option maxRecDepth 1000000

/-! Lemmas about the decimal machinery. -/

theorem natDigitsAux_lt : ∀ (f n d : Nat), d ∈ natDigitsAux f n → d < 10 := by
  intro f
  induction f with
  | zero => intro n d h; simp [natDigitsAux] at h
  | succ f ih =>
    intro n d h
    by_cases hn : n = 0
    · simp [natDigitsAux, hn] at h
    · simp only [natDigitsAux, if_neg hn, List.mem_cons] at h
      rcases h with h | h
      · subst h; exact Nat.mod_lt _ (by norm_num)
      · exact ih _ _ h

theorem foldl_natDigitsAux : ∀ (f n a : Nat), n ≤ f →
    (natDigitsAux f n).reverse.foldl (fun acc d => acc * 10 + d) a
      = a * 10 ^ (natDigitsAux f n).length + n := by
  intro f
  induction f with
  | zero =>
    intro n a h
    interval_cases n
    simp [natDigitsAux]
  | succ f ih =>
    intro n a h
    by_cases hn : n = 0
    · subst hn; simp [natDigitsAux]
    · have hdiv : n / 10 ≤ f := by
        have := Nat.div_lt_self (Nat.pos_of_ne_zero hn) (by norm_num : 1 < 10)
        omega
      simp only [natDigitsAux, if_neg hn, List.reverse_cons, List.foldl_append,
        List.foldl_cons, List.foldl_nil, List.length_cons]
      rw [ih (n / 10) a hdiv]
      have hmod : 10 * (n / 10) + n % 10 = n := Nat.div_add_mod n 10
      calc (a * 10 ^ (natDigitsAux f (n / 10)).length + n / 10) * 10 + n % 10
          = a * (10 ^ (natDigitsAux f (n / 10)).length * 10) + (10 * (n / 10) + n % 10) := by
            ring
        _ = a * 10 ^ ((natDigitsAux f (n / 10)).length + 1) + n := by
            rw [pow_succ, hmod]

theorem digitChar_toNat : ∀ d, d < 10 → (digitChar d).toNat = 48 + d := by decide

theorem decDigitVal_digitChar : ∀ d, d < 10 → decDigitVal? (digitChar d) = some d := by decide

theorem natDecimalChars_digits (n : Nat) :
    ∀ c ∈ natDecimalChars n, 48 ≤ c.toNat ∧ c.toNat ≤ 57 := by
  intro c hc
  by_cases hn : n = 0
  · subst hn; simp [natDecimalChars] at hc; subst hc; decide
  · simp only [natDecimalChars, if_neg hn, List.mem_reverse, List.mem_map] at hc
    obtain ⟨d, hd, rfl⟩ := hc
    have hlt : d < 10 := natDigitsAux_lt _ _ _ hd
    rw [digitChar_toNat d hlt]
    omega

theorem natDecimalChars_ne_nil (n : Nat) : natDecimalChars n ≠ [] := by
  by_cases hn : n = 0
  · subst hn; simp [natDecimalChars]
  · have : natDigits n ≠ [] := by
      unfold natDigits
      cases hf : n with
      | zero => exact absurd hf hn
      | succ m =>
        simp only [natDigitsAux, if_neg hn]
        exact List.cons_ne_nil _ _
    simp only [natDecimalChars, if_neg hn, ne_eq, List.reverse_eq_nil_iff,
      List.map_eq_nil_iff]
    exact this

theorem digitsValAux_all_some (base : Nat) (dv : Char → Option Nat) (f : Char → Nat) :
    ∀ (l : List Char) (a : Nat), (∀ c ∈ l, dv c = some (f c)) →
      digitsValAux base dv l a = some (l.foldl (fun acc c => acc * base + f c) a) := by
  intro l
  induction l with
  | nil => intro a _; rfl
  | cons c rest ih =>
    intro a h
    have hc : dv c = some (f c) := h c (List.mem_cons_self _ _)
    simp only [digitsValAux, hc, List.foldl_cons]
    exact ih _ (fun x hx => h x (List.mem_cons_of_mem _ hx))

theorem parseUnsigned_natDecimalChars (n : Nat) :
    parseUnsigned 10 decDigitVal? (natDecimalChars n) = some n := by
  by_cases hn : n = 0
  · subst hn; decide
  · cases h : natDecimalChars n with
    | nil => exact absurd h (natDecimalChars_ne_nil n)
    | cons c cs =>
      rw [← h]
      have hvalid : ∀ x ∈ natDecimalChars n, decDigitVal? x = some (x.toNat - 48) := by
        intro x hx
        have hb := natDecimalChars_digits n x hx
        simp only [decDigitVal?, if_pos hb]
      have hrun : parseUnsigned 10 decDigitVal? (natDecimalChars n)
          = digitsValAux 10 decDigitVal? (natDecimalChars n) 0 := by
        rw [h]; rfl
      rw [hrun, digitsValAux_all_some 10 decDigitVal? (fun x => x.toNat - 48)
        (natDecimalChars n) 0 hvalid]
      congr 1
      simp only [natDecimalChars, if_neg hn]
      rw [← List.map_reverse, List.foldl_map]
      have hpt : ∀ (a : Nat), ∀ d ∈ (natDigits n).reverse,
          a * 10 + ((digitChar d).toNat - 48) = a * 10 + d := by
        intro a d hd
        rw [List.mem_reverse] at hd
        rw [digitChar_toNat d (natDigitsAux_lt _ _ _ hd)]
        omega
      rw [List.foldl_ext _ _ 0 hpt]
      simpa [natDigits] using foldl_natDigitsAux n n 0 le_rfl

theorem setStringIntChars_natDecimalChars (n : Nat) :
    setStringIntChars 10 decDigitVal? (natDecimalChars n) = some (n : Int) := by
  cases h : natDecimalChars n with
  | nil => exact absurd h (natDecimalChars_ne_nil n)
  | cons c cs =>
    have hc : 48 ≤ c.toNat ∧ c.toNat ≤ 57 :=
      natDecimalChars_digits n c (h ▸ List.mem_cons_self _ _)
    have hdash : c ≠ '-' := by
      intro e; subst e
      have : ('-').toNat = 45 := rfl
      omega
    have hplus : c ≠ '+' := by
      intro e; subst e
      have : ('+').toNat = 43 := rfl
      omega
    have hp := parseUnsigned_natDecimalChars n
    rw [h] at hp
    simp only [setStringIntChars, if_neg hdash, if_neg hplus, hp, Option.map_some]
    rfl

theorem setStringInt_intDecimal (v : Int) :
    setStringInt 10 decDigitVal? (intDecimal v) = some v := by
  unfold setStringInt intDecimal intDecimalChars
  by_cases hv : v < 0
  · rw [if_pos hv]
    show setStringIntChars 10 decDigitVal? ('-' :: natDecimalChars v.natAbs) = some v
    have hrun := parseUnsigned_natDecimalChars v.natAbs
    have hneg : -(Int.ofNat v.natAbs) = v := by
      simp only [Int.ofNat_eq_coe]
      omega
    simp only [setStringIntChars, if_pos rfl, hrun, if_true]
    show some (-Int.ofNat v.natAbs) = some v
    rw [hneg]
  · rw [if_neg hv]
    show setStringIntChars 10 decDigitVal? (natDecimalChars v.natAbs) = some v
    rw [setStringIntChars_natDecimalChars]
    have habs : ((v.natAbs : Nat) : Int) = v := by omega
    rw [habs]

theorem natDecimalChars_inj {m n : Nat} (h : natDecimalChars m = natDecimalChars n) :
    m = n := by
  have hm := setStringIntChars_natDecimalChars m
  have hn := setStringIntChars_natDecimalChars n
  rw [h, hn] at hm
  have h2 : ((n : Int)) = (m : Int) := Option.some.inj hm
  exact_mod_cast h2.symm

theorem natDecimalChars_no_dash (n : Nat) : '-' ∉ natDecimalChars n := by
  intro h
  have := natDecimalChars_digits n '-' h
  have h45 : ('-').toNat = 45 := rfl
  omega

theorem intDecimal_ofNat (n : Nat) : intDecimal (Int.ofNat n) = natDecimal n := by
  unfold intDecimal intDecimalChars natDecimal
  have h0 : ¬(Int.ofNat n < 0) := by
    simp only [Int.ofNat_eq_coe]
    omega
  rw [if_neg h0]
  simp only [Int.ofNat_eq_coe, Int.natAbs_ofNat]

theorem setStringInt_natDecimal (n : Nat) :
    setStringInt 10 decDigitVal? (natDecimal n) = some (Int.ofNat n) := by
  show setStringIntChars 10 decDigitVal? (natDecimalChars n) = some (Int.ofNat n)
  rw [setStringIntChars_natDecimalChars]
  rfl

/-! String plumbing. -/

theorem string_data_append (a b : String) : (a ++ b).data = a.data ++ b.data := by
  cases a
  cases b
  rfl

theorem string_mk_inj {a b : List Char} (h : (⟨a⟩ : String) = ⟨b⟩) : a = b := by
  injection h

/-- Splitting a dash-separated concatenation whose left parts carry no
dash recovers both parts. -/
theorem append_dash_inj :
    ∀ (a1 a2 b1 b2 : List Char), '-' ∉ a1 → '-' ∉ a2 →
      a1 ++ '-' :: b1 = a2 ++ '-' :: b2 → a1 = a2 ∧ b1 = b2 := by
  intro a1
  induction a1 with
  | nil =>
    intro a2 b1 b2 _ h2 h
    cases a2 with
    | nil => simpa using h
    | cons c cs =>
      simp only [List.nil_append, List.cons_append, List.cons.injEq] at h
      obtain ⟨h1eq, -⟩ := h
      rw [← h1eq] at h2
      exact absurd (List.mem_cons_self _ _) h2
  | cons c cs ih =>
    intro a2 b1 b2 h1 h2 h
    cases a2 with
    | nil =>
      simp only [List.cons_append, List.nil_append, List.cons.injEq] at h
      obtain ⟨h1eq, -⟩ := h
      rw [h1eq] at h1
      exact absurd (List.mem_cons_self _ _) h1
    | cons d ds =>
      simp only [List.cons_append, List.cons.injEq] at h
      obtain ⟨hcd, hrest⟩ := h
      have h1' : '-' ∉ cs := fun hm => h1 (List.mem_cons_of_mem _ hm)
      have h2' : '-' ∉ ds := fun hm => h2 (List.mem_cons_of_mem _ hm)
      obtain ⟨he, hb⟩ := ih ds b1 b2 h1' h2' hrest
      exact ⟨by rw [hcd, he], hb⟩

theorem hexHashChar_ne_dash {c : Char} (h : isHexHashChar c = true) : c ≠ '-' := by
  intro e
  subst e
  exact absurd h (by decide)

/-! Hexadecimal scanning. -/

theorem setStringIntChars_hexRun (l : List Char) (hne : l ≠ [])
    (hval : ∀ c ∈ l, (hexVal? c).isSome = true) :
    setStringIntChars 16 hexVal? l = some (Int.ofNat (hexValue l)) := by
  cases l with
  | nil => exact absurd rfl hne
  | cons c rest =>
    have hx : ∀ x ∈ c :: rest, hexVal? x = some ((hexVal? x).getD 0) := by
      intro x hxm
      have := hval x hxm
      cases hh : hexVal? x with
      | none => rw [hh] at this; simp at this
      | some d => rfl
    have hdash : c ≠ '-' := by
      intro e
      subst e
      have := hval '-' (List.mem_cons_self _ _)
      simp [hexVal?] at this
    have hplus : c ≠ '+' := by
      intro e
      subst e
      have := hval '+' (List.mem_cons_self _ _)
      simp [hexVal?] at this
    have hrun : parseUnsigned 16 hexVal? (c :: rest)
        = some ((c :: rest).foldl (fun a x => a * 16 + (hexVal? x).getD 0) 0) := by
      show digitsValAux 16 hexVal? (c :: rest) 0
        = some ((c :: rest).foldl (fun a x => a * 16 + (hexVal? x).getD 0) 0)
      exact digitsValAux_all_some 16 hexVal? (fun x => (hexVal? x).getD 0) (c :: rest) 0 hx
    simp only [setStringIntChars, if_neg hdash, if_neg hplus, hrun, Option.map_some]
    rfl

/-! Lemmas about the writer's slicing loop. -/

theorem chunksAux_flatten {α : Type} (limit : Nat) (hpos : 0 < limit) :
    ∀ (f : Nat) (l : List α), l.length ≤ f → (chunksAux limit f l).flatten = l := by
  intro f
  induction f with
  | zero =>
    intro l h
    have hnil : l = [] := List.eq_nil_of_length_eq_zero (by omega)
    subst hnil
    rfl
  | succ f ih =>
    intro l h
    cases l with
    | nil => rfl
    | cons x xs =>
      show (List.take limit (x :: xs) :: chunksAux limit f (List.drop limit (x :: xs))).flatten
        = x :: xs
      rw [List.flatten_cons, ih (List.drop limit (x :: xs))
        (by simp only [List.length_drop]; simp at h ⊢; omega), List.take_append_drop]

theorem chunksAux_length {α : Type} :
    ∀ (f : Nat) (l : List α), l.length ≤ f →
      (chunksAux 500 f l).length = (l.length + 499) / 500 := by
  intro f
  induction f with
  | zero =>
    intro l h
    have hnil : l = [] := List.eq_nil_of_length_eq_zero (by omega)
    subst hnil
    simp [chunksAux]
  | succ f ih =>
    intro l h
    cases l with
    | nil => simp [chunksAux]
    | cons x xs =>
      show (List.take 500 (x :: xs) :: chunksAux 500 f (List.drop 500 (x :: xs))).length
        = ((x :: xs).length + 499) / 500
      rw [List.length_cons, ih (List.drop 500 (x :: xs))
        (by simp only [List.length_drop]; simp at h ⊢; omega)]
      simp only [List.length_drop, List.length_cons]
      have hx : xs.length + 1 ≥ 1 := by omega
      omega

theorem chunksAux_sizes {α : Type} (limit : Nat) :
    ∀ (f : Nat) (l : List α), ∀ g ∈ chunksAux limit f l, g.length ≤ limit := by
  intro f
  induction f with
  | zero =>
    intro l g hg
    cases l with
    | nil => simp [chunksAux] at hg
    | cons x xs => simp [chunksAux] at hg
  | succ f ih =>
    intro l g hg
    cases l with
    | nil => simp [chunksAux] at hg
    | cons x xs =>
      have hg' : g ∈ List.take limit (x :: xs) :: chunksAux limit f (List.drop limit (x :: xs)) := hg
      rcases List.mem_cons.mp hg' with h | h
      · subst h
        simp [List.length_take]
      · exact ih _ g h

/-! Lemmas about the transaction loop. -/

theorem runGroups_allTxOk :
    ∀ (gs : List (List TransferDocument)) (n : Nat) (s : FirestoreState),
      runGroups allTxOk n s gs
        = { store := applyGroups s gs, success := true, attempted := gs } := by
  intro gs
  induction gs with
  | nil => intro n s; rfl
  | cons g gs ih =>
    intro n s
    show (if allTxOk n = true then _ else _) = _
    rw [if_pos (show allTxOk n = true from rfl)]
    simp only [ih (n + 1) (applyGroup s g)]
    rfl

theorem runGroups_fail_at (txOk : Nat → Bool) :
    ∀ (k : Nat) (gs : List (List TransferDocument)) (n : Nat) (s : FirestoreState),
      k < gs.length → (∀ j, j < k → txOk (n + j) = true) → txOk (n + k) = false →
      runGroups txOk n s gs =
        { store := applyGroups s (gs.take k), success := false
        , attempted := gs.take (k + 1) } := by
  intro k
  induction k with
  | zero =>
    intro gs n s hk hpre hfail
    cases gs with
    | nil => simp at hk
    | cons g gs =>
      have h0 : txOk n = false := by simpa using hfail
      show (if txOk n = true then _ else _) = _
      rw [if_neg (by simp [h0])]
      rfl
  | succ k ih =>
    intro gs n s hk hpre hfail
    cases gs with
    | nil => simp at hk
    | cons g gs =>
      have h0 : txOk n = true := by simpa using hpre 0 (Nat.succ_pos k)
      show (if txOk n = true then _ else _) = _
      rw [if_pos h0]
      have hpre' : ∀ j, j < k → txOk (n + 1 + j) = true := by
        intro j hj
        have := hpre (j + 1) (by omega)
        rw [show n + 1 + j = n + (j + 1) by omega]
        exact this
      have hfail' : txOk (n + 1 + k) = false := by
        rw [show n + 1 + k = n + (k + 1) by omega]
        exact hfail
      rw [ih gs (n + 1) (applyGroup s g) (by simpa using hk) hpre' hfail']
      simp only [List.take_succ_cons]
      rfl

/-! Lemmas about the store. -/

theorem upsert_lookup_eq (key : String) (v : TransferDocument) :
    ∀ s : FirestoreState, lookupStore key s = some v → upsert key v s = s := by
  intro s
  induction s with
  | nil => intro h; simp [lookupStore] at h
  | cons p rest ih =>
    obtain ⟨k, w⟩ := p
    intro h
    by_cases hk : k = key
    · simp only [lookupStore, if_pos hk] at h
      simp only [upsert, if_pos hk]
      injection h with h
      rw [h]
    · simp only [lookupStore, if_neg hk] at h
      simp only [upsert, if_neg hk]
      rw [ih h]

theorem lookup_upsert_ne (key k' : String) (v : TransferDocument) (h : k' ≠ key) :
    ∀ s : FirestoreState, lookupStore k' (upsert key v s) = lookupStore k' s := by
  intro s
  induction s with
  | nil =>
    show lookupStore k' [(key, v)] = lookupStore k' []
    simp [lookupStore, Ne.symm h]
  | cons p rest ih =>
    obtain ⟨k, w⟩ := p
    by_cases hk : k = key
    · have hkk : ¬(k = k') := by
        rw [hk]
        exact fun e => h e.symm
      simp only [upsert, if_pos hk, lookupStore, if_neg hkk]
    · simp only [upsert, if_neg hk, lookupStore]
      by_cases hk' : k = k'
      · rw [if_pos hk', if_pos hk']
      · rw [if_neg hk', if_neg hk', ih]

theorem upsert_fresh (key : String) (v : TransferDocument) :
    ∀ s : FirestoreState, lookupStore key s = none → upsert key v s = s ++ [(key, v)] := by
  intro s
  induction s with
  | nil => intro _; rfl
  | cons p rest ih =>
    obtain ⟨k, w⟩ := p
    intro h
    by_cases hk : k = key
    · simp [lookupStore, if_pos hk] at h
    · simp only [lookupStore, if_neg hk] at h
      simp only [upsert, if_neg hk, List.cons_append, ih h]

theorem lookup_upsert_self (key : String) (v : TransferDocument) :
    ∀ s : FirestoreState, lookupStore key (upsert key v s) = some v := by
  intro s
  induction s with
  | nil => simp [upsert, lookupStore]
  | cons p rest ih =>
    obtain ⟨k, w⟩ := p
    by_cases hk : k = key
    · simp only [upsert, if_pos hk, lookupStore]
    · simp only [upsert, if_neg hk, lookupStore, if_neg hk]
      exact ih

theorem applyGroup_cons (s : FirestoreState) (t : TransferDocument)
    (g : List TransferDocument) :
    applyGroup s (t :: g) = applyGroup (upsert (docKey t) t s) g := rfl

theorem applyGroup_append (s : FirestoreState) (a b : List TransferDocument) :
    applyGroup s (a ++ b) = applyGroup (applyGroup s a) b := by
  unfold applyGroup
  exact List.foldl_append _ _ _ _

theorem applyGroups_flatten (gs : List (List TransferDocument)) :
    ∀ s : FirestoreState, applyGroups s gs = applyGroup s gs.flatten := by
  induction gs with
  | nil => intro s; rfl
  | cons g gs ih =>
    intro s
    show applyGroups (applyGroup s g) gs = applyGroup s ((g :: gs).flatten)
    rw [ih, List.flatten_cons, applyGroup_append]

theorem lookup_applyGroup_notmem (key : String) :
    ∀ (g : List TransferDocument) (s : FirestoreState),
      (∀ t ∈ g, docKey t ≠ key) →
      lookupStore key (applyGroup s g) = lookupStore key s := by
  intro g
  induction g with
  | nil => intro s _; rfl
  | cons t g ih =>
    intro s hne
    rw [applyGroup_cons, ih _ (fun u hu => hne u (List.mem_cons_of_mem _ hu)),
      lookup_upsert_ne _ _ _ (fun e => hne t (List.mem_cons_self _ _) e.symm)]

theorem lookup_applyGroup_mem :
    ∀ (g : List TransferDocument) (s : FirestoreState),
      (g.map docKey).Nodup →
      ∀ t ∈ g, lookupStore (docKey t) (applyGroup s g) = some t := by
  intro g
  induction g with
  | nil => intro s _ t ht; simp at ht
  | cons u g ih =>
    intro s hnd t ht
    have hnd' : (g.map docKey).Nodup := by
      simp only [List.map_cons, List.nodup_cons] at hnd
      exact hnd.2
    have hhead : docKey u ∉ g.map docKey := by
      simp only [List.map_cons, List.nodup_cons] at hnd
      exact hnd.1
    rcases List.mem_cons.mp ht with h | h
    · subst h
      rw [applyGroup_cons, lookup_applyGroup_notmem _ g _
        (fun x hx e => hhead (by rw [← e]; exact List.mem_map_of_mem docKey hx)),
        lookup_upsert_self]
    · rw [applyGroup_cons]
      exact ih _ hnd' t h

theorem applyGroup_invariant :
    ∀ (g : List TransferDocument) (s : FirestoreState),
      (∀ t ∈ g, lookupStore (docKey t) s = some t) → applyGroup s g = s := by
  intro g
  induction g with
  | nil => intro s _; rfl
  | cons t g ih =>
    intro s hin
    rw [applyGroup_cons, upsert_lookup_eq _ _ _ (hin t (List.mem_cons_self _ _))]
    exact ih _ (fun u hu => hin u (List.mem_cons_of_mem _ hu))

theorem applyGroup_idem (g : List TransferDocument) (s : FirestoreState)
    (hnd : (g.map docKey).Nodup) :
    applyGroup (applyGroup s g) g = applyGroup s g :=
  applyGroup_invariant g _ (fun t ht => lookup_applyGroup_mem g s hnd t ht)

theorem lookup_append_single (key k' : String) (v : TransferDocument) (h : key ≠ k') :
    ∀ s : FirestoreState, lookupStore k' (s ++ [(key, v)]) = lookupStore k' s := by
  intro s
  induction s with
  | nil =>
    simp only [List.nil_append, lookupStore]
    rw [if_neg h]
  | cons p rest ih =>
    obtain ⟨k, w⟩ := p
    simp only [List.cons_append, lookupStore]
    by_cases hk : k = k'
    · rw [if_pos hk, if_pos hk]
    · rw [if_neg hk, if_neg hk]
      exact ih

theorem applyGroup_length_fresh :
    ∀ (g : List TransferDocument) (s : FirestoreState),
      (g.map docKey).Nodup →
      (∀ t ∈ g, lookupStore (docKey t) s = none) →
      (applyGroup s g).length = s.length + g.length := by
  intro g
  induction g with
  | nil => intro s _ _; simp [applyGroup]
  | cons t g ih =>
    intro s hnd hfresh
    have hnd' : (g.map docKey).Nodup := by
      simp only [List.map_cons, List.nodup_cons] at hnd
      exact hnd.2
    have hhead : docKey t ∉ g.map docKey := by
      simp only [List.map_cons, List.nodup_cons] at hnd
      exact hnd.1
    rw [applyGroup_cons, upsert_fresh _ _ _ (hfresh t (List.mem_cons_self _ _))]
    rw [ih _ hnd' ?_]
    · simp only [List.length_append, List.length_singleton, List.length_cons,
        List.length_nil]
      omega
    · intro u hu
      rw [lookup_append_single _ _ _
        (fun e => hhead (by rw [e]; exact List.mem_map_of_mem docKey hu))]
      exact hfresh u (List.mem_cons_of_mem _ hu)

theorem chunks_flatten_500 (l : List TransferDocument) :
    (chunks maxBatchSize l).flatten = l := by
  show (chunksAux 500 l.length l).flatten = l
  exact chunksAux_flatten 500 (by norm_num) l.length l le_rfl

theorem WriteBatchTransfers_allTxOk_store (l : List TransferDocument)
    (s : FirestoreState) :
    (WriteBatchTransfers allTxOk l s).store = applyGroup s l := by
  unfold WriteBatchTransfers
  rw [runGroups_allTxOk]
  show applyGroups s (chunks maxBatchSize l) = applyGroup s l
  rw [applyGroups_flatten, chunks_flatten_500]

/-! The claims. -/

/-- C1: for every sequence of records the Writer (with a store committing
every transaction) opens exactly ceil(L/500) transactions, over contiguous
groups of at most 500 records in input order whose concatenation is the
input; 1200 records go as three groups of 500, 500 and 200, in order. -/
theorem writer_batch_partition :
    (∀ (l : List TransferDocument) (s : FirestoreState),
        (WriteBatchTransfers allTxOk l s).attempted.length = (l.length + 499) / 500
      ∧ ((WriteBatchTransfers allTxOk l s).attempted.map List.length).all
          (fun n => n ≤ 500) = true
      ∧ (WriteBatchTransfers allTxOk l s).attempted.flatten = l)
    ∧ (WriteBatchTransfers allTxOk (List.replicate 1200 sampleDoc) []).attempted.map
        List.length = [500, 500, 200] := by
  constructor
  · intro l s
    have hatt : (WriteBatchTransfers allTxOk l s).attempted = chunks maxBatchSize l := by
      unfold WriteBatchTransfers
      rw [runGroups_allTxOk]
    refine ⟨?_, ?_, ?_⟩
    · rw [hatt]
      exact chunksAux_length l.length l le_rfl
    · rw [hatt, List.all_eq_true]
      intro n hn
      rw [List.mem_map] at hn
      obtain ⟨g, hg, rfl⟩ := hn
      simpa using chunksAux_sizes 500 l.length l g hg
    · rw [hatt]
      exact chunks_flatten_500 l
  · decide

/-- C2: if the store fails the transaction of group k (number k of the
groups, counting from zero) after committing every earlier one, the Writer
returns the failure, the store holds exactly the first k groups (the
failing transaction commits nothing), only groups 0..k were ever attempted
— each exactly once, so no internal retry — and no later group is
touched. -/
theorem writer_partial_failure (txOk : Nat → Bool) (l : List TransferDocument)
    (s : FirestoreState) (k : Nat)
    (hk : k < (chunks maxBatchSize l).length)
    (hpre : ∀ j, j < k → txOk j = true) (hfail : txOk k = false) :
    WriteBatchTransfers txOk l s =
      { store := applyGroups s ((chunks maxBatchSize l).take k)
      , success := false
      , attempted := (chunks maxBatchSize l).take (k + 1) } := by
  unfold WriteBatchTransfers
  exact runGroups_fail_at txOk k (chunks maxBatchSize l) 0 s hk
    (fun j hj => by rw [Nat.zero_add]; exact hpre j hj)
    (by rw [Nat.zero_add]; exact hfail)

theorem writer_partial_failure_witness :
    WriteBatchTransfers (fun j => j == 0) (List.replicate 501 sampleDoc) [] =
      { store := applyGroups []
          ((chunks maxBatchSize (List.replicate 501 sampleDoc)).take 1)
      , success := false
      , attempted := (chunks maxBatchSize (List.replicate 501 sampleDoc)).take 2 } :=
  writer_partial_failure (fun j => j == 0) (List.replicate 501 sampleDoc) [] 1
    (by decide)
    (fun j hj => by
      have hj0 : j = 0 := by omega
      subst hj0
      rfl)
    (by decide)

/-- C3: writing the same records twice (all transactions committing) leaves
the store exactly as after the first write — every record upserts under its
document key — and from an empty store a sequence of N records with
pairwise distinct keys is stored as exactly N documents. -/
theorem writer_idempotent (l : List TransferDocument) (s : FirestoreState)
    (hnd : (l.map docKey).Nodup) :
    (WriteBatchTransfers allTxOk l ((WriteBatchTransfers allTxOk l s).store)).store
      = (WriteBatchTransfers allTxOk l s).store
    ∧ (WriteBatchTransfers allTxOk l []).store.length = l.length := by
  constructor
  · rw [WriteBatchTransfers_allTxOk_store, WriteBatchTransfers_allTxOk_store]
    exact applyGroup_idem l s hnd
  · rw [WriteBatchTransfers_allTxOk_store]
    have h := applyGroup_length_fresh l [] hnd (fun t _ => rfl)
    simpa using h

theorem writer_idempotent_witness :
    ((WriteBatchTransfers allTxOk [sampleDoc, sampleDoc2]
        ((WriteBatchTransfers allTxOk [sampleDoc, sampleDoc2] []).store)).store
      = (WriteBatchTransfers allTxOk [sampleDoc, sampleDoc2] []).store)
    ∧ (WriteBatchTransfers allTxOk [sampleDoc, sampleDoc2] []).store.length
        = [sampleDoc, sampleDoc2].length :=
  writer_idempotent [sampleDoc, sampleDoc2] [] (by decide)

/-- C4: the Identity Function concatenates the transaction hash, a dash and
the decimal log position — a pure function, so identical pairs always give
the identical key — and on hex-string hashes with non-negative positions
two pairs with the same key are the same pair. -/
theorem getDocumentID_key_injective :
    (∀ (a : String) (i : Int), GetDocumentID a i = a ++ "-" ++ intDecimal i)
    ∧ ∀ (a1 : String) (i1 : Int) (a2 : String) (i2 : Int),
        IsHexHashString a1 → IsHexHashString a2 → 0 ≤ i1 → 0 ≤ i2 →
        GetDocumentID a1 i1 = GetDocumentID a2 i2 → a1 = a2 ∧ i1 = i2 := by
  constructor
  · intro a i
    rfl
  · intro a1 i1 a2 i2 h1 h2 hi1 hi2 heq
    have hminus : ("-" : String).data = ['-'] := rfl
    have hd0 := congrArg String.data heq
    simp only [GetDocumentID, string_data_append, hminus] at hd0
    have hd : a1.data ++ '-' :: intDecimalChars i1
        = a2.data ++ '-' :: intDecimalChars i2 := by
      simpa [List.append_assoc] using hd0
    have hnd1 : '-' ∉ a1.data := fun hm => absurd (h1 '-' hm) (by decide)
    have hnd2 : '-' ∉ a2.data := fun hm => absurd (h2 '-' hm) (by decide)
    obtain ⟨ha, hb⟩ := append_dash_inj a1.data a2.data _ _ hnd1 hnd2 hd
    refine ⟨?_, ?_⟩
    · exact String.ext ha
    · rw [intDecimalChars, intDecimalChars, if_neg (by omega), if_neg (by omega)] at hb
      have := natDecimalChars_inj hb
      omega

theorem getDocumentID_key_injective_witness :
    ("0xab" : String) = "0xab" ∧ (3 : Int) = 3 :=
  getDocumentID_key_injective.2 "0xab" 3 "0xab" 3 (by decide) (by decide) (by decide)
    (by decide) rfl

/-- C5 counterexample: a log entry whose first topic is not the
transfer-event signature still decodes to a Transfer Record — the decoder
never compares the first topic with anything. -/
theorem decoder_signature_unchecked_cex :
    (wrongSigWebhook.logs.getD 0 default).topics.getD 0 "" ≠ transferEventSignature
    ∧ (ParseTransferEvent wrongSigWebhook 0).toOption.isSome = true :=
  ⟨by decide, by decide⟩

/-- C5 (amended): the Decoder yields a record only when the index addresses
an entry, the entry carries at least three topics and its payload holds at
least one 32-byte word; the first topic is never checked against the
transfer-event signature (that filter lives upstream). -/
theorem decoder_success_shape (w : WebhookEvent) (i : Int)
    (h : (ParseTransferEvent w i).toOption.isSome = true) :
    0 ≤ i ∧ i < (w.logs.length : Int)
    ∧ 3 ≤ (w.logs.getD i.toNat default).topics.length
    ∧ 32 ≤ (fromHexBytes (w.logs.getD i.toNat default).data).length := by
  unfold ParseTransferEvent at h
  by_cases h1 : (w.logs.length : Int) ≤ i
  · rw [if_pos h1] at h
    simp [ParseOutcome.toOption] at h
  · rw [if_neg h1] at h
    by_cases h2 : i < 0
    · rw [if_pos h2] at h
      simp [ParseOutcome.toOption] at h
    · rw [if_neg h2] at h
      by_cases h3 : (w.logs.getD i.toNat default).topics.length < 3
      · rw [if_pos h3] at h
        simp [ParseOutcome.toOption] at h
      · rw [if_neg h3] at h
        refine ⟨by omega, by omega, by omega, ?_⟩
        cases hb : transferValueBytes? (w.logs.getD i.toNat default).data with
        | none =>
          rw [hb] at h
          simp [ParseOutcome.toOption] at h
        | some v =>
          unfold transferValueBytes? at hb
          by_cases h4 : (fromHexBytes (w.logs.getD i.toNat default).data).length < 32
          · rw [if_pos h4] at hb
            exact absurd hb (by simp)
          · omega

theorem decoder_success_shape_witness :
    0 ≤ (0 : Int) ∧ (0 : Int) < (wrongSigWebhook.logs.length : Int)
    ∧ 3 ≤ (wrongSigWebhook.logs.getD (0 : Int).toNat default).topics.length
    ∧ 32 ≤ (fromHexBytes (wrongSigWebhook.logs.getD (0 : Int).toNat default).data).length :=
  decoder_success_shape wrongSigWebhook 0 (by decide)

/-- C7 counterexample: at index -1 the decoder panics (the Go slice
indexing is reached with a negative index) instead of reporting the
out-of-range error the claim requires. -/
theorem decoder_negative_index_cex :
    ParseTransferEvent twoTopicWebhook (-1) = .panics
    ∧ ParseTransferEvent twoTopicWebhook (-1) ≠ .err .outOfRange :=
  ⟨by decide, by decide⟩

/-- C7 (amended): the Decoder reports OutOfRange exactly when the index is
at least the entry count, panics on a negative index (the bound check only
looks upward), and reports MalformedEvent on an addressed entry with fewer
than three topics. -/
theorem decoder_error_cases (w : WebhookEvent) (i : Int) :
    ((w.logs.length : Int) ≤ i → ParseTransferEvent w i = .err .outOfRange)
    ∧ (i < 0 → ParseTransferEvent w i = .panics)
    ∧ (0 ≤ i → i < (w.logs.length : Int) →
        (w.logs.getD i.toNat default).topics.length < 3 →
        ParseTransferEvent w i = .err .malformedEvent) := by
  refine ⟨?_, ?_, ?_⟩
  · intro h
    unfold ParseTransferEvent
    rw [if_pos h]
  · intro h
    unfold ParseTransferEvent
    rw [if_neg (by omega), if_pos h]
  · intro h0 hlen htop
    unfold ParseTransferEvent
    rw [if_neg (by omega), if_neg (by omega), if_pos htop]

theorem decoder_error_cases_witness :
    ParseTransferEvent twoTopicWebhook 5 = .err .outOfRange
    ∧ ParseTransferEvent twoTopicWebhook (-2) = .panics
    ∧ ParseTransferEvent twoTopicWebhook 0 = .err .malformedEvent :=
  ⟨(decoder_error_cases twoTopicWebhook 5).1 (by decide),
   (decoder_error_cases twoTopicWebhook (-2)).2.1 (by decide),
   (decoder_error_cases twoTopicWebhook 0).2.2 (by decide) (by decide) (by decide)⟩

theorem foldl_parse_filterMap (w : WebhookEvent) :
    ∀ (L : List Nat) (acc : List TransferDocument),
      L.foldl (fun (acc : List TransferDocument) (i : Nat) =>
        match ParseTransferEvent w (i : Int) with
        | .ok doc => acc ++ [doc]
        | _ => acc) acc
      = acc ++ L.filterMap (fun (i : Nat) => (ParseTransferEvent w (i : Int)).toOption) := by
  intro L
  induction L with
  | nil =>
    intro acc
    simp
  | cons i L ih =>
    intro acc
    simp only [List.foldl_cons, List.filterMap_cons]
    cases h : ParseTransferEvent w (i : Int) with
    | ok d =>
      simp only [h, ParseOutcome.toOption]
      rw [ih]
      simp only [List.append_assoc]
      rfl
    | err e =>
      simp only [h, ParseOutcome.toOption]
      rw [ih]
      rfl
    | panics =>
      simp only [h, ParseOutcome.toOption]
      rw [ih]
      rfl

/-- C6: the Batch Extractor never fails (its error component is always nil)
and returns exactly the records of the entries the Decoder accepts, in
entry order; on a notification where every entry is skipped it returns the
empty sequence with a nil error. -/
theorem extractor_order_and_totality :
    (∀ w : WebhookEvent,
        (ParseTransferEvents w).2 = none
      ∧ (ParseTransferEvents w).1
          = (List.range w.logs.length).filterMap
              (fun (i : Nat) => (ParseTransferEvent w (i : Int)).toOption))
    ∧ ParseTransferEvents twoTopicWebhook = ([], none) := by
  constructor
  · intro w
    refine ⟨rfl, ?_⟩
    have h := foldl_parse_filterMap w (List.range w.logs.length) []
    simpa [ParseTransferEvents] using h
  · decide

/-- C8: the Batch Publisher hands the transport exactly one message whose
payload is the marshalled record sequence; its attributes are the
originating webhook id, event id, network label and record count when the
sequence is non-empty and exactly the zero count when it is empty; the
message is handed over in either case, and an acknowledged publish returns
success — also for the empty sequence. -/
theorem publisher_single_message (ack : PubSubMessage → Except String String)
    (transfers : List TransferDocument) :
    (PublishTransfers ack transfers).2.length = 1
    ∧ ((PublishTransfers ack transfers).2.headD pubSubMessage0).data
        = marshalTransferDocuments transfers
    ∧ (transfers = [] →
        ((PublishTransfers ack transfers).2.headD pubSubMessage0).attributes
          = [("count", "0")])
    ∧ (∀ t0 rest, transfers = t0 :: rest →
        ((PublishTransfers ack transfers).2.headD pubSubMessage0).attributes
          = [("webhook_id", t0.alchemy.webhookId), ("event_id", t0.alchemy.eventId),
             ("network", t0.network), ("count", natDecimal transfers.length)])
    ∧ ((∃ mid, ack ((PublishTransfers ack transfers).2.headD pubSubMessage0)
          = .ok mid) →
        (PublishTransfers ack transfers).1 = .ok ()) := by
  have h2 : (PublishTransfers ack transfers).2 = [pubMessage transfers] := by
    unfold PublishTransfers
    cases ack (pubMessage transfers) <;> rfl
  refine ⟨by rw [h2]; rfl, by rw [h2]; rfl, ?_, ?_, ?_⟩
  · intro he
    subst he
    rw [h2]
    rfl
  · intro t0 rest he
    subst he
    rw [h2]
    rfl
  · intro hok
    rw [h2] at hok
    obtain ⟨mid, hid⟩ := hok
    simp only [List.headD_cons] at hid
    unfold PublishTransfers
    rw [hid]

theorem publisher_single_message_witness :
    (((PublishTransfers ackOkConst []).2.headD pubSubMessage0).attributes
        = [("count", "0")])
    ∧ (PublishTransfers ackOkConst []).1 = .ok ()
    ∧ (((PublishTransfers ackOkConst [sampleDoc]).2.headD pubSubMessage0).attributes
        = [("webhook_id", "wh_1"), ("event_id", "whevt_1"),
           ("network", "ETH_MAINNET"), ("count", natDecimal 1)]) :=
  ⟨(publisher_single_message ackOkConst []).2.2.1 rfl,
   (publisher_single_message ackOkConst []).2.2.2.2 ⟨"m1", rfl⟩,
   (publisher_single_message ackOkConst [sampleDoc]).2.2.2.1 sampleDoc [] rfl⟩

/-- C9: the hex-to-decimal conversion sends 0x (and the empty string) to 0
and 0x1 to 1, and on every valid hex input its output is the decimal
rendering of the same unsigned integer — both the rendering itself and the
fact that scanning the output back in base 10 recovers that integer. -/
theorem hex_to_decimal_correct :
    convertHexToDecimal "0x" = "0" ∧ convertHexToDecimal "" = "0"
    ∧ convertHexToDecimal "0x1" = "1"
    ∧ ∀ s : String, (∀ c ∈ trim0x s.data, (hexVal? c).isSome = true) →
        convertHexToDecimal s = natDecimal (hexValue (trim0x s.data))
        ∧ setStringInt 10 decDigitVal? (convertHexToDecimal s)
            = some (Int.ofNat (hexValue (trim0x s.data))) := by
  refine ⟨by decide, by decide, by decide, ?_⟩
  intro s hval
  by_cases hnil : trim0x s.data = []
  · have h1 : convertHexToDecimal s = "0" := by
      simp only [convertHexToDecimal]
      rw [if_pos hnil]
    rw [hnil, h1]
    exact ⟨by decide, by decide⟩
  · have hsc := setStringIntChars_hexRun (trim0x s.data) hnil hval
    have h1 : convertHexToDecimal s
        = intDecimal (Int.ofNat (hexValue (trim0x s.data))) := by
      simp only [convertHexToDecimal]
      rw [if_neg hnil, hsc]
    refine ⟨?_, ?_⟩
    · rw [h1, intDecimal_ofNat]
    · rw [h1, intDecimal_ofNat, setStringInt_natDecimal]

theorem hex_to_decimal_correct_witness :
    convertHexToDecimal "0xff" = natDecimal (hexValue (trim0x "0xff".data))
    ∧ setStringInt 10 decDigitVal? (convertHexToDecimal "0xff")
        = some (Int.ofNat (hexValue (trim0x "0xff".data))) :=
  hex_to_decimal_correct.2.2.2 "0xff" (by decide)

theorem intDecimalChars_ne_nil (v : Int) : intDecimalChars v ≠ [] := by
  unfold intDecimalChars
  by_cases hv : v < 0
  · rw [if_pos hv]
    exact List.cons_ne_nil _ _
  · rw [if_neg hv]
    exact natDecimalChars_ne_nil _

theorem intDecimal_ne_empty (v : Int) : intDecimal v ≠ "" := by
  intro e
  have he : intDecimalChars v = ([] : List Char) := congrArg String.data e
  exact intDecimalChars_ne_nil v he

/-- C10: marshalling a Transfer whose Value pointer is non-nil and
unmarshalling the result (into any receiver) reconstructs the original
Transfer in every field. -/
theorem transfer_marshal_roundtrip (t t0 : Transfer) (v : Int)
    (hv : t.value = some v) :
    Transfer.UnmarshalJSON t0 (Transfer.MarshalJSON t) = .ok t := by
  obtain ⟨c, fa, ta, val, li⟩ := t
  have hval : val = some v := hv
  subst hval
  have hne : intDecimal v ≠ "" := intDecimal_ne_empty v
  simp [Transfer.MarshalJSON, Transfer.UnmarshalJSON, jString, jInt, jLookup,
    bigIntString, hne, setStringInt_intDecimal, Bind.bind, Except.bind]

theorem transfer_marshal_roundtrip_witness :
    Transfer.UnmarshalJSON
        { contract := "", fromAddress := "", toAddress := "", value := none, logIndex := 0 }
        (Transfer.MarshalJSON
          { contract := "0xc", fromAddress := "0xa", toAddress := "0xb"
          , value := some (-7), logIndex := 3 })
      = .ok { contract := "0xc", fromAddress := "0xa", toAddress := "0xb"
            , value := some (-7), logIndex := 3 } :=
  transfer_marshal_roundtrip _ _ (-7) rfl

end AlchemyWebhook
